import Mathlib

/-!
Verification of `qcelemental/molparse/to_schema.py` (`to_schema`), a pure
translator from the molparse internal molecule record to one of three schema
shapes (the legacy psi4 dict, QCSchema v1, QCSchema v2).

The embedding models:
* the input record as a structure `MolRec` (spec section 3);
* python/numpy values in the produced dictionaries as the inductive `QVal`,
  which distinguishes a numpy ndarray (`QVal.arr`) from a plain python list
  (`QVal.list`), because the `np_out` flag of the source controls exactly
  this distinction;
* the external collaborators `constants.conversion_factor` and
  `formula_generator` as explicit function parameters `cf` and `fgen`
  (the source imports them from modules outside this slice);
* the serialization normalizer `unnp` (imported from `..util`, outside this
  slice) from the spec's description of it;
* numpy array aliasing for the geometry (the only field the function does
  arithmetic on) via a small store `NpStore`, to state the frame property
  that the caller's array is never written through.
-/

/-- Python/numpy values appearing in the dictionaries built by `to_schema`.
`arr` is a numpy ndarray; `list` is a plain python list; `dict` is a python
dict kept as an insertion-ordered association list. -/
inductive QVal where
  | num : ℚ → QVal
  | str : String → QVal
  | bool : Bool → QVal
  | arr : List QVal → QVal
  | list : List QVal → QVal
  | dict : List (String × QVal) → QVal

/-- The molparse molecule record (`molrec`), with the required keys the
source reads and the optional keys it probes with `in` / `.get`. -/
structure MolRec where
  geom : List ℚ
  units : String
  input_units_to_au : Option ℚ
  elem : List String
  mass : List ℚ
  elez : List Int
  elea : List Int
  elbl : List String
  name : Option String
  comment : Option String
  molecular_charge : ℚ
  molecular_multiplicity : Nat
  real : List Bool
  fragment_separators : List Nat
  fragment_charges : List ℚ
  fragment_multiplicities : List Nat
  fix_com : Bool
  fix_orientation : Bool
  fix_symmetry : Option String
  provenance : List (String × String)
  connectivity : Option (List (Nat × Nat × ℚ))

/-- The two `ValidationError` raise sites of `to_schema`, told apart the way
the spec's error taxonomy tells them apart, each carrying the formatted
message text. -/
inductive VErr where
  | invalidUnits : String → VErr
  | schemaNotUnderstood : String → VErr
deriving DecidableEq

/-- String form of the `dtype` argument (a python `str` or `int`) as
`str.format` renders it into the error messages. -/
def dtypeRepr : String ⊕ Int → String
  | Sum.inl s => s
  | Sum.inr n => toString n

/-- Core of lines 43-48 of the source: the three-branch geometry scaling.
`cf` is the external `constants.conversion_factor` collaborator. -/
def scaledGeomCore (geom : List ℚ) (molUnits : String) (iua : Option ℚ)
    (units : String) (cf : String → String → ℚ) : List ℚ :=
  if molUnits = "Bohr" ∧ units = "Bohr" then geom
  else if molUnits = "Angstrom" ∧ units = "Bohr" ∧ iua.isSome then
    geom.map (fun x => x * iua.getD 0)
  else
    geom.map (fun x => x * cf molUnits units)

/-- The scaled geometry of a record (lines 41-48 of the source). -/
def scaledGeom (m : MolRec) (units : String) (cf : String → String → ℚ) : List ℚ :=
  scaledGeomCore m.geom m.units m.input_units_to_au units cf

/-- Python slice `l[a:b]` with nonnegative bounds (clamping, empty when
`b ≤ a`). -/
def pySlice {α : Type} (l : List α) (a b : Nat) : List α :=
  (l.drop a).take (b - a)

/-- `numpy.split(l, seps)`: division points are `0 :: seps ++ [len]` and the
pieces are the slices between consecutive division points. -/
def npSplit {α : Type} (l : List α) (seps : List Nat) : List (List α) :=
  let dp := 0 :: (seps ++ [l.length])
  (dp.zip dp.tail).map fun p => pySlice l p.1 p.2

/-- Python dict assignment `d[k] = v` on an insertion-ordered assoc list:
replace in place when the key is present, append otherwise. -/
def dictSet (d : List (String × QVal)) (k : String) (v : QVal) : List (String × QVal) :=
  if d.any (fun p => p.1 = k) then
    d.map (fun p => if p.1 = k then (k, v) else p)
  else
    d ++ [(k, v)]

/-- The legacy (psi4) branch's starting point `deepcopy(molrec)` rendered as
a python dict: every field of the record under its molrec key, optional keys
present only when the option is `some`.  Per-atom numeric and label fields
are ndarrays (as molparse produces them); separator/charge/multiplicity
lists and scalars are plain. -/
def molrecToDict (m : MolRec) : List (String × QVal) :=
  [("geom", QVal.arr (m.geom.map QVal.num)),
   ("units", QVal.str m.units)]
  ++ (match m.input_units_to_au with
      | some f => [("input_units_to_au", QVal.num f)]
      | none => [])
  ++ [("elem", QVal.arr (m.elem.map QVal.str)),
      ("mass", QVal.arr (m.mass.map QVal.num)),
      ("elez", QVal.arr (m.elez.map fun z => QVal.num (z : ℚ))),
      ("elea", QVal.arr (m.elea.map fun a => QVal.num (a : ℚ))),
      ("elbl", QVal.arr (m.elbl.map QVal.str))]
  ++ (match m.name with
      | some n => [("name", QVal.str n)]
      | none => [])
  ++ (match m.comment with
      | some c => [("comment", QVal.str c)]
      | none => [])
  ++ [("molecular_charge", QVal.num m.molecular_charge),
      ("molecular_multiplicity", QVal.num (m.molecular_multiplicity : ℚ)),
      ("real", QVal.arr (m.real.map QVal.bool)),
      ("fragment_separators", QVal.list (m.fragment_separators.map fun i => QVal.num (i : ℚ))),
      ("fragment_charges", QVal.list (m.fragment_charges.map QVal.num)),
      ("fragment_multiplicities", QVal.list (m.fragment_multiplicities.map fun n => QVal.num (n : ℚ))),
      ("fix_com", QVal.bool m.fix_com),
      ("fix_orientation", QVal.bool m.fix_orientation)]
  ++ (match m.fix_symmetry with
      | some fs => [("fix_symmetry", QVal.str fs)]
      | none => [])
  ++ [("provenance", QVal.dict (m.provenance.map fun p => (p.1, QVal.str p.2)))]
  ++ (match m.connectivity with
      | some conn =>
          [("connectivity", QVal.list (conn.map fun t =>
              QVal.list [QVal.num (t.1 : ℚ), QVal.num (t.2.1 : ℚ), QVal.num t.2.2]))]
      | none => [])

/-- The `molecule` dict built by the v1/v2 branch (lines 69-97 of the
source), in source insertion order.  `geom` is the scaled geometry, `nat`
the derived atom count, `name` the resolved name. -/
def moleculeDict (m : MolRec) (geom : List ℚ) (nat : Nat) (name : String) :
    List (String × QVal) :=
  [("validated", QVal.bool true),
   ("symbols", QVal.arr (m.elem.map QVal.str)),
   ("geometry", QVal.arr (geom.map QVal.num)),
   ("masses", QVal.arr (m.mass.map QVal.num)),
   ("atomic_numbers", QVal.arr (m.elez.map fun z => QVal.num (z : ℚ))),
   ("mass_numbers", QVal.arr (m.elea.map fun a => QVal.num (a : ℚ))),
   ("atom_labels", QVal.arr (m.elbl.map QVal.str)),
   ("name", QVal.str name)]
  ++ (match m.comment with
      | some c => [("comment", QVal.str c)]
      | none => [])
  ++ [("molecular_charge", QVal.num m.molecular_charge),
      ("molecular_multiplicity", QVal.num (m.molecular_multiplicity : ℚ)),
      ("real", QVal.arr (m.real.map QVal.bool)),
      ("fragments", QVal.list ((npSplit (List.range nat) m.fragment_separators).map
          fun fr => QVal.list (fr.map fun i => QVal.num (i : ℚ)))),
      ("fragment_charges", QVal.list (m.fragment_charges.map QVal.num)),
      ("fragment_multiplicities", QVal.list (m.fragment_multiplicities.map fun n => QVal.num (n : ℚ))),
      ("fix_com", QVal.bool m.fix_com),
      ("fix_orientation", QVal.bool m.fix_orientation)]
  ++ (match m.fix_symmetry with
      | some fs => [("fix_symmetry", QVal.str fs)]
      | none => [])
  ++ [("provenance", QVal.dict (m.provenance.map fun p => (p.1, QVal.str p.2)))]
  ++ (match m.connectivity with
      | some conn =>
          [("connectivity", QVal.list (conn.map fun t =>
              QVal.list [QVal.num (t.1 : ℚ), QVal.num (t.2.1 : ℚ), QVal.num t.2.2]))]
      | none => [])

mutual

/-- `ndarray.tolist()`: recursively turn every array node into a plain list. -/
def QVal.toPlain : QVal → QVal
  | QVal.arr vs => QVal.list (toPlainList vs)
  | QVal.list vs => QVal.list (toPlainList vs)
  | QVal.dict kvs => QVal.dict (toPlainKVs kvs)
  | v => v

def toPlainList : List QVal → List QVal
  | [] => []
  | v :: vs => v.toPlain :: toPlainList vs

def toPlainKVs : List (String × QVal) → List (String × QVal)
  | [] => []
  | kv :: kvs => (kv.1, kv.2.toPlain) :: toPlainKVs kvs

end

mutual

/-- Modelled from the spec: the serialization normalizer `unnp` (imported by
the source from `..util`, whose code is outside this slice).  It recursively
walks dictionaries converting every numeric-array-typed value into nested
plain-number sequences, leaving scalars, strings, and already-plain
structures untouched. -/
def QVal.unnp : QVal → QVal
  | QVal.dict kvs => QVal.dict (unnpKVs kvs)
  | QVal.arr vs => QVal.toPlain (QVal.arr vs)
  | v => v

def unnpKVs : List (String × QVal) → List (String × QVal)
  | [] => []
  | kv :: kvs => (kv.1, kv.2.unnp) :: unnpKVs kvs

end

/-- The `molecule` dict the v1/v2 branch builds (lines 69-97): `moleculeDict`
applied to the scaled geometry, the derived atom count `nat = len(geom) // 3`
(line 50), and the resolved name (line 52). -/
def moleculeOf (m : MolRec) (units : String) (cf : String → String → ℚ)
    (fgen : List String → String) : List (String × QVal) :=
  moleculeDict m (scaledGeom m units cf) ((scaledGeom m units cf).length / 3)
    (m.name.getD (fgen m.elem))

/-- The branching part of the translator (lines 39-104 of the source): the
`qcschema` dict before the final `unnp` normalization.  `dtype` is a python
str or int; `cf` and `fgen` stand for the external
`constants.conversion_factor` and `formula_generator` collaborators.
Raising `ValidationError` is modelled as `Except.error`. -/
def to_schema_raw (molrec : MolRec) (dtype : String ⊕ Int) (units : String)
    (cf : String → String → ℚ) (fgen : List String → String) :
    Except VErr QVal :=
  if dtype = Sum.inl "psi4" then
      if units ≠ "Angstrom" ∧ units ≠ "Bohr" then
        Except.error (VErr.invalidUnits
          ("Psi4 Schema psi4 allows only Bohr/Angstrom coordinates, not " ++ units ++ "."))
      else
        Except.ok (QVal.dict
          (dictSet (dictSet (dictSet (molrecToDict molrec)
            "geom" (QVal.arr ((scaledGeom molrec units cf).map QVal.num)))
            "units" (QVal.str units))
            "name" (QVal.str (molrec.name.getD (fgen molrec.elem)))))
    else if dtype = Sum.inr 1 ∨ dtype = Sum.inr 2 then
      if units ≠ "Bohr" then
        Except.error (VErr.invalidUnits
          ("QC_JSON_Schema " ++ dtypeRepr dtype ++ " allows only Bohr coordinates, not "
            ++ units ++ "."))
      else
        if dtype = Sum.inr 1 then
          Except.ok (QVal.dict
            [("schema_name", QVal.str "qcschema_input"),
             ("schema_version", QVal.num 1),
             ("molecule", QVal.dict (moleculeOf molrec units cf fgen))])
        else
          Except.ok (QVal.dict
            (dictSet (dictSet (moleculeOf molrec units cf fgen)
              "schema_name" (QVal.str "qcschema_molecule"))
              "schema_version" (QVal.num 2)))
    else
      Except.error (VErr.schemaNotUnderstood
        ("Schema dtype not understood, valid options are \x7bpsi4, 1, 2\x7d. Found "
          ++ dtypeRepr dtype ++ "."))

/-- The translator `to_schema` (lines 12-110 of the source): build the
`qcschema` dict, then, when `np_out` is false, normalize it with `unnp`. -/
def to_schema (molrec : MolRec) (dtype : String ⊕ Int) (units : String)
    (np_out : Bool) (cf : String → String → ℚ) (fgen : List String → String) :
    Except VErr QVal :=
  match to_schema_raw molrec dtype units cf fgen with
  | Except.error e => Except.error e
  | Except.ok q => Except.ok (if np_out then q else q.unnp)

/-- Python dict read `d[k]` on the insertion-ordered assoc list: the value
at the first (and, in the dicts built here, only) matching key. -/
def dictGet : List (String × QVal) → String → Option QVal
  | [], _ => none
  | kv :: kvs, k => if kv.1 = k then some kv.2 else dictGet kvs k

mutual

/-- Whether a value contains a numpy ndarray node anywhere. -/
def QVal.hasArr : QVal → Bool
  | QVal.arr _ => true
  | QVal.list vs => hasArrList vs
  | QVal.dict kvs => hasArrKVs kvs
  | _ => false

def hasArrList : List QVal → Bool
  | [] => false
  | v :: vs => v.hasArr || hasArrList vs

def hasArrKVs : List (String × QVal) → Bool
  | [] => false
  | kv :: kvs => kv.2.hasArr || hasArrKVs kvs

end

mutual

/-- Whether every ndarray node of a value is reachable without passing
through a plain-list node — exactly the condition under which `unnp`
(which recurses into dicts and converts arrays, but leaves plain lists
untouched) removes all ndarray nodes. -/
def QVal.listArrFree : QVal → Bool
  | QVal.list vs => !hasArrList vs
  | QVal.dict kvs => listArrFreeKVs kvs
  | _ => true

def listArrFreeKVs : List (String × QVal) → Bool
  | [] => true
  | kv :: kvs => kv.2.listArrFree && listArrFreeKVs kvs

end

/-- Spec-side description of the `fragments` value: the partition of
`[0, n)` split at the separator boundaries into contiguous groups. -/
def partitionAt (n : Nat) (seps : List Nat) : List (List Nat) :=
  let dp := 0 :: (seps ++ [n])
  (dp.zip dp.tail).map fun p => List.range' p.1 (p.2 - p.1)

/-- A store of numpy arrays, to track aliasing of the geometry array: a
record's `geom` field is a reference into the store, and numpy operations
either read, alias, or allocate. -/
structure NpStore where
  arrays : List (List ℚ)

/-- Read the array behind a reference. -/
def NpStore.get (s : NpStore) (r : Nat) : List ℚ :=
  s.arrays.getD r []

/-- Allocate a fresh array, returning its reference. -/
def NpStore.alloc (s : NpStore) (v : List ℚ) : NpStore × Nat :=
  (⟨s.arrays ++ [v]⟩, s.arrays.length)

/-- `np.array(x, copy=copy)` on an ndarray: a fresh copy when `copy` is
true, the same object otherwise. -/
def npArrayCopy (s : NpStore) (r : Nat) (copy : Bool) : NpStore × Nat :=
  if copy then s.alloc (s.get r) else (s, r)

/-- numpy `a * f`: elementwise scaling that always allocates a fresh array
(the source rebinds `geom = geom * factor`; it never writes in place). -/
def npMulScalar (s : NpStore) (r : Nat) (f : ℚ) : NpStore × Nat :=
  s.alloc ((s.get r).map (fun x => x * f))

/-- Lines 41-48 of the source replayed against the array store: `geom =
np.array(molrec["geom"], copy=copy)` followed by the three-branch scaling,
with the caller's geometry array at reference `gref`. -/
def geomTrace (s : NpStore) (gref : Nat) (molUnits : String) (iua : Option ℚ)
    (units : String) (cf : String → String → ℚ) (copy : Bool) : NpStore × Nat :=
  let sg := npArrayCopy s gref copy
  if molUnits = "Bohr" ∧ units = "Bohr" then sg
  else if molUnits = "Angstrom" ∧ units = "Bohr" ∧ iua.isSome then
    npMulScalar sg.1 sg.2 (iua.getD 0)
  else
    npMulScalar sg.1 sg.2 (cf molUnits units)

/-- A concrete six-atom record (three fragments split at `[2, 4]`),
used to instantiate the theorems with hypotheses. -/
def sample6 : MolRec where
  geom := (List.range 18).map fun i => (i : ℚ)
  units := "Bohr"
  input_units_to_au := none
  elem := ["O", "H", "O", "H", "O", "H"]
  mass := [16, 1, 16, 1, 16, 1]
  elez := [8, 1, 8, 1, 8, 1]
  elea := [16, 1, 16, 1, 16, 1]
  elbl := ["", "", "", "", "", ""]
  name := none
  comment := none
  molecular_charge := 0
  molecular_multiplicity := 1
  real := [true, true, true, true, true, true]
  fragment_separators := [2, 4]
  fragment_charges := [0, 0, 0]
  fragment_multiplicities := [1, 1, 1]
  fix_com := false
  fix_orientation := false
  fix_symmetry := none
  provenance := [("creator", "QCElemental")]
  connectivity := none

/-- A one-atom record declared in Angstrom with an explicit record-specific
input-to-atomic-units factor. -/
def sampleAng : MolRec where
  geom := [1, 2, 3]
  units := "Angstrom"
  input_units_to_au := some (27 / 50)
  elem := ["He"]
  mass := [4]
  elez := [2]
  elea := [4]
  elbl := [""]
  name := some "helium"
  comment := none
  molecular_charge := 0
  molecular_multiplicity := 1
  real := [true]
  fragment_separators := []
  fragment_charges := [0]
  fragment_multiplicities := [1]
  fix_com := false
  fix_orientation := false
  fix_symmetry := none
  provenance := []
  connectivity := none

/-- A seven-coordinate record: geometry length deliberately not a multiple
of three. -/
def sample7 : MolRec where
  geom := [0, 0, 0, 1, 1, 1, 5]
  units := "Bohr"
  input_units_to_au := none
  elem := ["H", "H"]
  mass := [1, 1]
  elez := [1, 1]
  elea := [1, 1]
  elbl := ["", ""]
  name := none
  comment := none
  molecular_charge := 0
  molecular_multiplicity := 1
  real := [true, true]
  fragment_separators := []
  fragment_charges := [0]
  fragment_multiplicities := [1]
  fix_com := false
  fix_orientation := false
  fix_symmetry := none
  provenance := []
  connectivity := none

/-- A concrete stand-in for the external conversion-factor table, chosen to
differ from every record-specific factor used in the samples. -/
def cfSample : String → String → ℚ := fun _ _ => 2

/-- A concrete stand-in for the external formula generator. -/
def fgenSample : List String → String := fun es => String.join es

theorem dictGet_append_none {l1 l2 : List (String × QVal)} {k : String}
    (h : dictGet l1 k = none) : dictGet (l1 ++ l2) k = dictGet l2 k := by
  induction l1 with
  | nil => rfl
  | cons kv t ih =>
    by_cases hk : kv.1 = k
    · simp [dictGet, hk] at h
    · simp only [dictGet, if_neg hk] at h
      simp only [List.cons_append, dictGet, if_neg hk]
      exact ih h

theorem dictGet_append_some {l1 l2 : List (String × QVal)} {k : String} {v : QVal}
    (h : dictGet l1 k = some v) : dictGet (l1 ++ l2) k = some v := by
  induction l1 with
  | nil => cases h
  | cons kv t ih =>
    by_cases hk : kv.1 = k
    · simp only [dictGet, if_pos hk] at h
      simp only [List.cons_append, dictGet, if_pos hk, h]
    · simp only [dictGet, if_neg hk] at h
      simp only [List.cons_append, dictGet, if_neg hk]
      exact ih h

theorem any_key_false_of_dictGet_none {k : String} {d : List (String × QVal)}
    (h : dictGet d k = none) : d.any (fun p => p.1 = k) = false := by
  induction d with
  | nil => rfl
  | cons kv t ih =>
    by_cases hk : kv.1 = k
    · simp [dictGet, hk] at h
    · simp only [dictGet, if_neg hk] at h
      simp [List.any_cons, hk, ih h]

theorem dictGet_none_of_any_false {k : String} {d : List (String × QVal)}
    (h : d.any (fun p => p.1 = k) = false) : dictGet d k = none := by
  induction d with
  | nil => rfl
  | cons kv t ih =>
    simp only [List.any_cons, Bool.or_eq_false_iff] at h
    have hk : kv.1 ≠ k := by simpa using h.1
    simp only [dictGet, if_neg hk]
    exact ih h.2

theorem dictSet_of_none {d : List (String × QVal)} {k : String} (v : QVal)
    (h : dictGet d k = none) : dictSet d k v = d ++ [(k, v)] := by
  unfold dictSet
  rw [if_neg]
  simp [any_key_false_of_dictGet_none h]

theorem dictGet_map_set {d : List (String × QVal)} {k : String} {v : QVal}
    (h : d.any (fun p => p.1 = k) = true) :
    dictGet (d.map (fun p => if p.1 = k then (k, v) else p)) k = some v := by
  induction d with
  | nil => simp at h
  | cons kv t ih =>
    by_cases hk : kv.1 = k
    · simp [dictGet, hk]
    · have h' : t.any (fun p => p.1 = k) = true := by
        simpa [List.any_cons, hk] using h
      simp [dictGet, hk, ih h']

theorem dictGet_map_set_ne {d : List (String × QVal)} {k k' : String} {v : QVal}
    (h : k' ≠ k) :
    dictGet (d.map (fun p => if p.1 = k then (k, v) else p)) k' = dictGet d k' := by
  induction d with
  | nil => rfl
  | cons kv t ih =>
    by_cases hk : kv.1 = k
    · have hkk' : kv.1 ≠ k' := fun hh => h (hh.symm.trans hk)
      simp [dictGet, hk, hkk', Ne.symm h, ih]
    · simp [dictGet, hk, ih]

theorem dictGet_dictSet_self (d : List (String × QVal)) (k : String) (v : QVal) :
    dictGet (dictSet d k v) k = some v := by
  unfold dictSet
  split
  · exact dictGet_map_set ‹_›
  · have hfalse : (d.any fun p => decide (p.1 = k)) = false :=
      Bool.eq_false_iff.mpr ‹_›
    rw [dictGet_append_none (dictGet_none_of_any_false hfalse)]
    simp [dictGet]

theorem dictGet_dictSet_ne (d : List (String × QVal)) {k k' : String} (v : QVal)
    (h : k' ≠ k) : dictGet (dictSet d k v) k' = dictGet d k' := by
  unfold dictSet
  split
  · exact dictGet_map_set_ne h
  · cases hdk : dictGet d k' with
    | some w => rw [dictGet_append_some hdk]
    | none =>
      rw [dictGet_append_none hdk]
      simp only [dictGet, if_neg (fun hh : k = k' => h hh.symm)]

theorem unnpKVs_append (l1 l2 : List (String × QVal)) :
    unnpKVs (l1 ++ l2) = unnpKVs l1 ++ unnpKVs l2 := by
  induction l1 with
  | nil => rfl
  | cons kv t ih => simp [unnpKVs, ih]

theorem dictGet_unnpKVs (d : List (String × QVal)) (k : String) :
    dictGet (unnpKVs d) k = (dictGet d k).map QVal.unnp := by
  induction d with
  | nil => rfl
  | cons kv t ih =>
    by_cases hk : kv.1 = k <;> simp [unnpKVs, dictGet, hk, ih]

mutual

theorem hasArr_toPlain : ∀ v : QVal, (QVal.toPlain v).hasArr = false
  | QVal.num _ => rfl
  | QVal.str _ => rfl
  | QVal.bool _ => rfl
  | QVal.arr vs => by
      simp [QVal.toPlain, QVal.hasArr, hasArrList_toPlainList vs]
  | QVal.list vs => by
      simp [QVal.toPlain, QVal.hasArr, hasArrList_toPlainList vs]
  | QVal.dict kvs => by
      simp [QVal.toPlain, QVal.hasArr, hasArrKVs_toPlainKVs kvs]

theorem hasArrList_toPlainList : ∀ vs : List QVal, hasArrList (toPlainList vs) = false
  | [] => rfl
  | v :: vs => by
      simp [toPlainList, hasArrList, hasArr_toPlain v, hasArrList_toPlainList vs]

theorem hasArrKVs_toPlainKVs : ∀ kvs : List (String × QVal), hasArrKVs (toPlainKVs kvs) = false
  | [] => rfl
  | kv :: kvs => by
      simp [toPlainKVs, hasArrKVs, hasArr_toPlain kv.2, hasArrKVs_toPlainKVs kvs]

end

mutual

theorem hasArr_unnp : ∀ v : QVal, v.listArrFree = true → (QVal.unnp v).hasArr = false
  | QVal.num _, _ => rfl
  | QVal.str _, _ => rfl
  | QVal.bool _, _ => rfl
  | QVal.arr vs, _ => by
      have := hasArr_toPlain (QVal.arr vs)
      simpa [QVal.unnp] using this
  | QVal.list vs, h => by
      simp only [QVal.listArrFree, Bool.not_eq_true'] at h
      simpa [QVal.unnp, QVal.hasArr] using h
  | QVal.dict kvs, h => by
      simp only [QVal.listArrFree] at h
      simp [QVal.unnp, QVal.hasArr, hasArrKVs_unnpKVs kvs h]

theorem hasArrKVs_unnpKVs : ∀ kvs : List (String × QVal),
    listArrFreeKVs kvs = true → hasArrKVs (unnpKVs kvs) = false
  | [], _ => rfl
  | kv :: kvs, h => by
      simp only [listArrFreeKVs, Bool.and_eq_true] at h
      simp [unnpKVs, hasArrKVs, hasArr_unnp kv.2 h.1, hasArrKVs_unnpKVs kvs h.2]

end

theorem hasArrList_map {α : Type} (l : List α) (f : α → QVal)
    (h : ∀ x, (f x).hasArr = false) : hasArrList (l.map f) = false := by
  induction l with
  | nil => rfl
  | cons x t ih => simp [hasArrList, h, ih]

theorem listArrFreeKVs_append (l1 l2 : List (String × QVal)) :
    listArrFreeKVs (l1 ++ l2) = (listArrFreeKVs l1 && listArrFreeKVs l2) := by
  induction l1 with
  | nil => rfl
  | cons kv t ih => simp [listArrFreeKVs, ih, Bool.and_assoc]

theorem listArrFreeKVs_map {α : Type} (l : List α) (f : α → String × QVal)
    (h : ∀ x, (f x).2.listArrFree = true) : listArrFreeKVs (l.map f) = true := by
  induction l with
  | nil => rfl
  | cons x t ih => simp [listArrFreeKVs, h, ih]

theorem listArrFreeKVs_map_set {d : List (String × QVal)} {k : String} {v : QVal}
    (hd : listArrFreeKVs d = true) (hv : v.listArrFree = true) :
    listArrFreeKVs (d.map fun p => if p.1 = k then (k, v) else p) = true := by
  induction d with
  | nil => rfl
  | cons kv t ih =>
    simp only [listArrFreeKVs, Bool.and_eq_true] at hd
    by_cases hk : kv.1 = k <;> simp [listArrFreeKVs, hk, hv, hd.1, ih hd.2]

theorem listArrFreeKVs_dictSet {d : List (String × QVal)} {k : String} {v : QVal}
    (hd : listArrFreeKVs d = true) (hv : v.listArrFree = true) :
    listArrFreeKVs (dictSet d k v) = true := by
  unfold dictSet
  split
  · exact listArrFreeKVs_map_set hd hv
  · simp [listArrFreeKVs_append, listArrFreeKVs, hd, hv]

theorem pySlice_range {n a b : Nat} (hb : b ≤ n) :
    pySlice (List.range n) a b = List.range' a (b - a) := by
  unfold pySlice
  apply List.ext_getElem
  · simp [List.length_range']
    omega
  · intro i h1 h2
    simp [List.getElem_take, List.getElem_drop, List.getElem_range, List.getElem_range']

theorem npSplit_range_eq_partitionAt (n : Nat) (seps : List Nat)
    (h : ∀ s ∈ seps, s ≤ n) :
    npSplit (List.range n) seps = partitionAt n seps := by
  unfold npSplit partitionAt
  simp only [List.length_range]
  apply List.map_congr_left
  intro p hp
  have hmem := (List.of_mem_zip hp).2
  have hb : p.2 ≤ n := by
    rcases List.mem_append.mp hmem with hs | hn
    · exact h _ hs
    · simp at hn
      omega
  exact pySlice_range hb

theorem mem_of_mem_npSplit {α : Type} {l : List α} {seps : List Nat} {piece : List α}
    (hp : piece ∈ npSplit l seps) {x : α} (hx : x ∈ piece) : x ∈ l := by
  unfold npSplit at hp
  simp only [List.mem_map] at hp
  obtain ⟨p, _, rfl⟩ := hp
  exact List.mem_of_mem_drop (List.mem_of_mem_take hx)

theorem scaledGeom_length (m : MolRec) (units : String) (cf : String → String → ℚ) :
    (scaledGeom m units cf).length = m.geom.length := by
  unfold scaledGeom scaledGeomCore
  split
  · rfl
  · split <;> simp

theorem npstore_get_alloc_lt {s : NpStore} {r : Nat} (v : List ℚ)
    (h : r < s.arrays.length) : (s.alloc v).1.get r = s.get r := by
  simp only [NpStore.alloc, NpStore.get, List.getD, List.get?_eq_getElem?]
  rw [List.getElem?_append_left h]

theorem npstore_get_alloc_self (s : NpStore) (v : List ℚ) :
    (s.alloc v).1.get (s.alloc v).2 = v := by
  simp only [NpStore.alloc, NpStore.get]
  rw [List.getD_append_right _ _ _ _ (le_refl _)]
  simp

theorem to_schema_raw_psi4 (m : MolRec) (units : String)
    (cf : String → String → ℚ) (fgen : List String → String)
    (hu : ¬(units ≠ "Angstrom" ∧ units ≠ "Bohr")) :
    to_schema_raw m (Sum.inl "psi4") units cf fgen = Except.ok (QVal.dict
      (dictSet (dictSet (dictSet (molrecToDict m)
        "geom" (QVal.arr ((scaledGeom m units cf).map QVal.num)))
        "units" (QVal.str units))
        "name" (QVal.str (m.name.getD (fgen m.elem))))) := by
  unfold to_schema_raw
  rw [if_pos rfl, if_neg hu]

theorem to_schema_raw_psi4_err (m : MolRec) (units : String)
    (cf : String → String → ℚ) (fgen : List String → String)
    (hu : units ≠ "Angstrom" ∧ units ≠ "Bohr") :
    to_schema_raw m (Sum.inl "psi4") units cf fgen = Except.error (VErr.invalidUnits
      ("Psi4 Schema psi4 allows only Bohr/Angstrom coordinates, not " ++ units ++ ".")) := by
  unfold to_schema_raw
  rw [if_pos rfl, if_pos hu]

theorem to_schema_raw_v1 (m : MolRec) (cf : String → String → ℚ)
    (fgen : List String → String) :
    to_schema_raw m (Sum.inr 1) "Bohr" cf fgen = Except.ok (QVal.dict
      [("schema_name", QVal.str "qcschema_input"),
       ("schema_version", QVal.num 1),
       ("molecule", QVal.dict (moleculeOf m "Bohr" cf fgen))]) := by
  unfold to_schema_raw
  rw [if_neg (by simp), if_pos (Or.inl rfl), if_neg (by simp), if_pos rfl]

theorem to_schema_raw_v2 (m : MolRec) (cf : String → String → ℚ)
    (fgen : List String → String) :
    to_schema_raw m (Sum.inr 2) "Bohr" cf fgen = Except.ok (QVal.dict
      (dictSet (dictSet (moleculeOf m "Bohr" cf fgen)
        "schema_name" (QVal.str "qcschema_molecule"))
        "schema_version" (QVal.num 2))) := by
  unfold to_schema_raw
  rw [if_neg (by simp), if_pos (Or.inr rfl), if_neg (by simp), if_neg (by simp)]

theorem to_schema_raw_v12_err (m : MolRec) (dtype : String ⊕ Int) (units : String)
    (cf : String → String → ℚ) (fgen : List String → String)
    (hd : dtype = Sum.inr 1 ∨ dtype = Sum.inr 2) (hu : units ≠ "Bohr") :
    to_schema_raw m dtype units cf fgen = Except.error (VErr.invalidUnits
      ("QC_JSON_Schema " ++ dtypeRepr dtype ++ " allows only Bohr coordinates, not "
        ++ units ++ ".")) := by
  unfold to_schema_raw
  rw [if_neg (by rcases hd with h | h <;> subst h <;> simp), if_pos hd, if_pos hu]

theorem to_schema_raw_snu (m : MolRec) (dtype : String ⊕ Int) (units : String)
    (cf : String → String → ℚ) (fgen : List String → String)
    (h1 : dtype ≠ Sum.inl "psi4") (h2 : dtype ≠ Sum.inr 1) (h3 : dtype ≠ Sum.inr 2) :
    to_schema_raw m dtype units cf fgen = Except.error (VErr.schemaNotUnderstood
      ("Schema dtype not understood, valid options are \x7bpsi4, 1, 2\x7d. Found "
        ++ dtypeRepr dtype ++ ".")) := by
  unfold to_schema_raw
  rw [if_neg h1, if_neg (by simp [h2, h3])]

theorem to_schema_of_raw_ok {m : MolRec} {dtype : String ⊕ Int} {units : String}
    {cf : String → String → ℚ} {fgen : List String → String} {q : QVal} (np_out : Bool)
    (h : to_schema_raw m dtype units cf fgen = Except.ok q) :
    to_schema m dtype units np_out cf fgen = Except.ok (if np_out then q else q.unnp) := by
  unfold to_schema
  rw [h]

theorem to_schema_of_raw_err {m : MolRec} {dtype : String ⊕ Int} {units : String}
    {cf : String → String → ℚ} {fgen : List String → String} {e : VErr} (np_out : Bool)
    (h : to_schema_raw m dtype units cf fgen = Except.error e) :
    to_schema m dtype units np_out cf fgen = Except.error e := by
  unfold to_schema
  rw [h]

theorem to_schema_error_iff {m : MolRec} {dtype : String ⊕ Int} {units : String}
    {np_out : Bool} {cf : String → String → ℚ} {fgen : List String → String} {e : VErr} :
    to_schema m dtype units np_out cf fgen = Except.error e ↔
      to_schema_raw m dtype units cf fgen = Except.error e := by
  unfold to_schema
  cases hr : to_schema_raw m dtype units cf fgen <;> simp

@[simp]
theorem hasArr_num (q : ℚ) : (QVal.num q).hasArr = false := by simp [QVal.hasArr]

@[simp]
theorem hasArr_str (s : String) : (QVal.str s).hasArr = false := by simp [QVal.hasArr]

@[simp]
theorem hasArr_bool (b : Bool) : (QVal.bool b).hasArr = false := by simp [QVal.hasArr]

@[simp]
theorem listArrFree_num (q : ℚ) : (QVal.num q).listArrFree = true := by simp [QVal.listArrFree]

@[simp]
theorem listArrFree_str (s : String) : (QVal.str s).listArrFree = true := by simp [QVal.listArrFree]

@[simp]
theorem listArrFree_bool (b : Bool) : (QVal.bool b).listArrFree = true := by simp [QVal.listArrFree]

@[simp]
theorem listArrFree_arr (vs : List QVal) : (QVal.arr vs).listArrFree = true := by
  simp [QVal.listArrFree]

theorem listArrFree_dict (kvs : List (String × QVal)) :
    (QVal.dict kvs).listArrFree = listArrFreeKVs kvs := by
  simp [QVal.listArrFree]

theorem listArrFreeKVs_cons (kv : String × QVal) (t : List (String × QVal)) :
    listArrFreeKVs (kv :: t) = (kv.2.listArrFree && listArrFreeKVs t) := by
  simp [listArrFreeKVs]

theorem listArrFree_molrecToDict (m : MolRec) : listArrFreeKVs (molrecToDict m) = true := by
  unfold molrecToDict
  cases m.input_units_to_au <;> cases m.name <;> cases m.comment <;>
    cases m.fix_symmetry <;> cases m.connectivity <;>
    simp [listArrFreeKVs_append, listArrFreeKVs, QVal.listArrFree, QVal.hasArr,
      hasArrList_map, listArrFreeKVs_map, hasArrList]

theorem listArrFree_moleculeDict (m : MolRec) (geom : List ℚ) (nat : Nat) (name : String) :
    listArrFreeKVs (moleculeDict m geom nat name) = true := by
  unfold moleculeDict
  cases m.comment <;> cases m.fix_symmetry <;> cases m.connectivity <;>
    simp [listArrFreeKVs_append, listArrFreeKVs, QVal.listArrFree, QVal.hasArr,
      hasArrList_map, listArrFreeKVs_map, hasArrList]

theorem dictGet_moleculeDict_fragments (m : MolRec) (geom : List ℚ) (nat : Nat) (name : String) :
    dictGet (moleculeDict m geom nat name) "fragments"
      = some (QVal.list ((npSplit (List.range nat) m.fragment_separators).map
          fun fr => QVal.list (fr.map fun i => QVal.num (i : ℚ)))) := by
  unfold moleculeDict
  cases m.comment <;> simp [dictGet]

theorem dictGet_moleculeDict_fragment_charges (m : MolRec) (geom : List ℚ) (nat : Nat) (name : String) :
    dictGet (moleculeDict m geom nat name) "fragment_charges"
      = some (QVal.list (m.fragment_charges.map QVal.num)) := by
  unfold moleculeDict
  cases m.comment <;> simp [dictGet]

theorem dictGet_moleculeDict_fragment_multiplicities (m : MolRec) (geom : List ℚ) (nat : Nat) (name : String) :
    dictGet (moleculeDict m geom nat name) "fragment_multiplicities"
      = some (QVal.list (m.fragment_multiplicities.map fun n => QVal.num (n : ℚ))) := by
  unfold moleculeDict
  cases m.comment <;> simp [dictGet]

theorem dictGet_moleculeDict_symbols (m : MolRec) (geom : List ℚ) (nat : Nat) (name : String) :
    dictGet (moleculeDict m geom nat name) "symbols"
      = some (QVal.arr (m.elem.map QVal.str)) := by
  unfold moleculeDict
  simp [dictGet]

theorem dictGet_moleculeDict_geometry (m : MolRec) (geom : List ℚ) (nat : Nat) (name : String) :
    dictGet (moleculeDict m geom nat name) "geometry"
      = some (QVal.arr (geom.map QVal.num)) := by
  unfold moleculeDict
  simp [dictGet]

theorem dictGet_moleculeDict_masses (m : MolRec) (geom : List ℚ) (nat : Nat) (name : String) :
    dictGet (moleculeDict m geom nat name) "masses"
      = some (QVal.arr (m.mass.map QVal.num)) := by
  unfold moleculeDict
  simp [dictGet]

theorem dictGet_moleculeDict_atomic_numbers (m : MolRec) (geom : List ℚ) (nat : Nat) (name : String) :
    dictGet (moleculeDict m geom nat name) "atomic_numbers"
      = some (QVal.arr (m.elez.map fun z => QVal.num (z : ℚ))) := by
  unfold moleculeDict
  simp [dictGet]

theorem dictGet_moleculeDict_mass_numbers (m : MolRec) (geom : List ℚ) (nat : Nat) (name : String) :
    dictGet (moleculeDict m geom nat name) "mass_numbers"
      = some (QVal.arr (m.elea.map fun a => QVal.num (a : ℚ))) := by
  unfold moleculeDict
  simp [dictGet]

theorem dictGet_moleculeDict_atom_labels (m : MolRec) (geom : List ℚ) (nat : Nat) (name : String) :
    dictGet (moleculeDict m geom nat name) "atom_labels"
      = some (QVal.arr (m.elbl.map QVal.str)) := by
  unfold moleculeDict
  simp [dictGet]

theorem dictGet_moleculeDict_real (m : MolRec) (geom : List ℚ) (nat : Nat) (name : String) :
    dictGet (moleculeDict m geom nat name) "real"
      = some (QVal.arr (m.real.map QVal.bool)) := by
  unfold moleculeDict
  cases m.comment <;> simp [dictGet]

theorem dictGet_moleculeDict_schema_name (m : MolRec) (geom : List ℚ) (nat : Nat) (name : String) :
    dictGet (moleculeDict m geom nat name) "schema_name" = none := by
  unfold moleculeDict
  cases m.comment <;> cases m.fix_symmetry <;> cases m.connectivity <;> simp [dictGet]

theorem dictGet_moleculeDict_schema_version (m : MolRec) (geom : List ℚ) (nat : Nat) (name : String) :
    dictGet (moleculeDict m geom nat name) "schema_version" = none := by
  unfold moleculeDict
  cases m.comment <;> cases m.fix_symmetry <;> cases m.connectivity <;> simp [dictGet]

theorem dictSet_schema_tags (mol : List (String × QVal))
    (hn : dictGet mol "schema_name" = none) (hv : dictGet mol "schema_version" = none)
    (v1 v2 : QVal) :
    dictSet (dictSet mol "schema_name" v1) "schema_version" v2
      = mol ++ [("schema_name", v1), ("schema_version", v2)] := by
  rw [dictSet_of_none v1 hn]
  rw [dictSet_of_none v2 ?hfresh]
  · simp
  case hfresh =>
    rw [dictGet_append_none hv]
    simp [dictGet]

@[simp]
theorem unnp_num (q : ℚ) : (QVal.num q).unnp = QVal.num q := by simp [QVal.unnp]

@[simp]
theorem unnp_str (s : String) : (QVal.str s).unnp = QVal.str s := by simp [QVal.unnp]

@[simp]
theorem unnp_bool (b : Bool) : (QVal.bool b).unnp = QVal.bool b := by simp [QVal.unnp]

@[simp]
theorem unnp_list (vs : List QVal) : (QVal.list vs).unnp = QVal.list vs := by
  simp [QVal.unnp]

theorem unnp_dict (kvs : List (String × QVal)) :
    (QVal.dict kvs).unnp = QVal.dict (unnpKVs kvs) := by
  simp [QVal.unnp]

/-- C1: the output geometry follows exactly the three-branch precedence of
lines 43-48: (1) Bohr-to-Bohr is unscaled; (2) otherwise, an
Angstrom-declared record with an explicit `input_units_to_au` factor and
requested Bohr scales by that record-specific factor — for every
conversion-factor table `cf`, so the generic constant is not consulted;
(3) otherwise every coordinate scales by the generic factor for the
(declared, requested) pair. -/
theorem geom_scaling_three_branch (m : MolRec) (units : String)
    (cf : String → String → ℚ) :
    (m.units = "Bohr" ∧ units = "Bohr" → scaledGeom m units cf = m.geom) ∧
    (∀ F : ℚ, m.units = "Angstrom" → units = "Bohr" → m.input_units_to_au = some F →
      scaledGeom m units cf = m.geom.map fun x => x * F) ∧
    (¬(m.units = "Bohr" ∧ units = "Bohr") →
      ¬(m.units = "Angstrom" ∧ units = "Bohr" ∧ m.input_units_to_au.isSome) →
      scaledGeom m units cf = m.geom.map fun x => x * cf m.units units) := by
  unfold scaledGeom scaledGeomCore
  refine ⟨fun h => ?_, fun F hA hB hF => ?_, fun h1 h2 => ?_⟩
  · rw [if_pos h]
  · rw [if_neg (by simp [hA]), if_pos ⟨hA, hB, by simp [hF]⟩]
    simp [hF]
  · rw [if_neg h1, if_neg h2]

/-- Witness for C1 at `sampleAng`: the record-specific factor 27/50 is used
even though the table `cfSample` answers 2 for every pair. -/
theorem geom_scaling_three_branch_witness :
    scaledGeom sampleAng "Bohr" cfSample = sampleAng.geom.map fun x => x * (27 / 50) :=
  (geom_scaling_three_branch sampleAng "Bohr" cfSample).2.1 (27 / 50) rfl rfl rfl

/-- C2: the translator fails with the `InvalidUnits` validation error
exactly when the requested units value is not permitted for the chosen
dtype: for psi4 (legacy) the permitted values are Bohr and Angstrom, for
v1/v2 only Bohr; an unrecognized dtype never produces `InvalidUnits`.
Because the result is an `Except`, an error carries no partial output. -/
theorem invalid_units_iff (m : MolRec) (dtype : String ⊕ Int) (units : String)
    (np_out : Bool) (cf : String → String → ℚ) (fgen : List String → String) :
    (dtype = Sum.inl "psi4" →
      ((∃ msg, to_schema m dtype units np_out cf fgen
          = Except.error (VErr.invalidUnits msg))
        ↔ (units ≠ "Angstrom" ∧ units ≠ "Bohr"))) ∧
    ((dtype = Sum.inr 1 ∨ dtype = Sum.inr 2) →
      ((∃ msg, to_schema m dtype units np_out cf fgen
          = Except.error (VErr.invalidUnits msg))
        ↔ units ≠ "Bohr")) ∧
    ((dtype ≠ Sum.inl "psi4" ∧ dtype ≠ Sum.inr 1 ∧ dtype ≠ Sum.inr 2) →
      ∀ msg, to_schema m dtype units np_out cf fgen
          ≠ Except.error (VErr.invalidUnits msg)) := by
  refine ⟨fun hd => ?_, fun hd => ?_, fun hd msg hmsg => ?_⟩
  · subst hd
    by_cases hu : units ≠ "Angstrom" ∧ units ≠ "Bohr"
    · exact ⟨fun _ => hu,
        fun _ => ⟨_, to_schema_of_raw_err np_out (to_schema_raw_psi4_err m units cf fgen hu)⟩⟩
    · constructor
      · rintro ⟨msg, hmsg⟩
        rw [to_schema_of_raw_ok np_out (to_schema_raw_psi4 m units cf fgen hu)] at hmsg
        cases hmsg
      · intro h
        exact absurd h hu
  · by_cases hu : units = "Bohr"
    · subst hu
      constructor
      · rintro ⟨msg, hmsg⟩
        rcases hd with h | h <;> subst h
        · rw [to_schema_of_raw_ok np_out (to_schema_raw_v1 m cf fgen)] at hmsg
          cases hmsg
        · rw [to_schema_of_raw_ok np_out (to_schema_raw_v2 m cf fgen)] at hmsg
          cases hmsg
      · intro h
        exact absurd rfl h
    · exact ⟨fun _ => hu,
        fun _ => ⟨_, to_schema_of_raw_err np_out (to_schema_raw_v12_err m dtype units cf fgen hd hu)⟩⟩
  · rw [to_schema_of_raw_err np_out
      (to_schema_raw_snu m dtype units cf fgen hd.1 hd.2.1 hd.2.2)] at hmsg
    cases hmsg

/-- Witness for C2: dtype psi4 with units Hartree fails with InvalidUnits. -/
theorem invalid_units_iff_witness :
    ∃ msg, to_schema sample6 (Sum.inl "psi4") "Hartree" false cfSample fgenSample
      = Except.error (VErr.invalidUnits msg) :=
  ((invalid_units_iff sample6 (Sum.inl "psi4") "Hartree" false cfSample fgenSample).1 rfl).mpr
    (by decide)

/-- C6: every dtype outside the recognized set fails with the
`SchemaNotUnderstood` error whose message names the invalid value and lists
the valid set. -/
theorem schema_not_understood (m : MolRec) (dtype : String ⊕ Int) (units : String)
    (np_out : Bool) (cf : String → String → ℚ) (fgen : List String → String)
    (h1 : dtype ≠ Sum.inl "psi4") (h2 : dtype ≠ Sum.inr 1) (h3 : dtype ≠ Sum.inr 2) :
    to_schema m dtype units np_out cf fgen = Except.error (VErr.schemaNotUnderstood
      ("Schema dtype not understood, valid options are \x7bpsi4, 1, 2\x7d. Found "
        ++ dtypeRepr dtype ++ ".")) :=
  to_schema_of_raw_err np_out (to_schema_raw_snu m dtype units cf fgen h1 h2 h3)

/-- Witness for C6: dtype 3 with units Bohr fails with SchemaNotUnderstood. -/
theorem schema_not_understood_witness :
    to_schema sample6 (Sum.inr 3) "Bohr" false cfSample fgenSample
      = Except.error (VErr.schemaNotUnderstood
        ("Schema dtype not understood, valid options are \x7bpsi4, 1, 2\x7d. Found "
          ++ dtypeRepr (Sum.inr 3) ++ ".")) :=
  schema_not_understood sample6 (Sum.inr 3) "Bohr" false cfSample fgenSample
    (by decide) (by decide) (by decide)

/-- C3: for every record at units Bohr, v1 and v2 build the same inner
molecule fields; v1 wraps them in the `qcschema_input` version-1 envelope,
v2 is the same fields with `schema_name`/`schema_version` merged in at top
level (python `dict.update` appends the two fresh keys). -/
theorem v1_v2_same_molecule (m : MolRec) (np_out : Bool)
    (cf : String → String → ℚ) (fgen : List String → String) :
    ∃ mol : List (String × QVal),
      to_schema m (Sum.inr 1) "Bohr" np_out cf fgen = Except.ok (QVal.dict
        [("schema_name", QVal.str "qcschema_input"),
         ("schema_version", QVal.num 1),
         ("molecule", QVal.dict mol)]) ∧
      to_schema m (Sum.inr 2) "Bohr" np_out cf fgen = Except.ok (QVal.dict
        (mol ++ [("schema_name", QVal.str "qcschema_molecule"),
                 ("schema_version", QVal.num 2)])) := by
  have hv1 := to_schema_of_raw_ok np_out (to_schema_raw_v1 m cf fgen)
  have hv2 := to_schema_of_raw_ok np_out (to_schema_raw_v2 m cf fgen)
  have htags := dictSet_schema_tags (moleculeOf m "Bohr" cf fgen)
    (by unfold moleculeOf; exact dictGet_moleculeDict_schema_name _ _ _ _)
    (by unfold moleculeOf; exact dictGet_moleculeDict_schema_version _ _ _ _)
    (QVal.str "qcschema_molecule") (QVal.num 2)
  rw [htags] at hv2
  cases np_out
  · refine ⟨unnpKVs (moleculeOf m "Bohr" cf fgen), ?_, ?_⟩
    · rw [hv1]
      simp [unnp_dict, unnpKVs]
    · rw [hv2]
      simp [unnp_dict, unnpKVs_append, unnpKVs]
  · exact ⟨moleculeOf m "Bohr" cf fgen, by rw [hv1]; simp, by rw [hv2]; simp⟩

theorem to_schema_raw_listArrFree {m : MolRec} {dtype : String ⊕ Int} {units : String}
    {cf : String → String → ℚ} {fgen : List String → String} {q : QVal}
    (h : to_schema_raw m dtype units cf fgen = Except.ok q) : q.listArrFree = true := by
  by_cases h1 : dtype = Sum.inl "psi4"
  · subst h1
    by_cases hu : units ≠ "Angstrom" ∧ units ≠ "Bohr"
    · rw [to_schema_raw_psi4_err m units cf fgen hu] at h
      cases h
    · rw [to_schema_raw_psi4 m units cf fgen hu] at h
      obtain rfl := Except.ok.inj h
      simp only [QVal.listArrFree]
      exact listArrFreeKVs_dictSet
        (listArrFreeKVs_dictSet
          (listArrFreeKVs_dictSet (listArrFree_molrecToDict m) (by simp))
          (by simp))
        (by simp)
  · by_cases h2 : dtype = Sum.inr 1 ∨ dtype = Sum.inr 2
    · by_cases hu : units = "Bohr"
      · subst hu
        rcases h2 with h2 | h2 <;> subst h2
        · rw [to_schema_raw_v1 m cf fgen] at h
          obtain rfl := Except.ok.inj h
          have hmol : listArrFreeKVs (moleculeOf m "Bohr" cf fgen) = true := by
            unfold moleculeOf
            exact listArrFree_moleculeDict m _ _ _
          rw [listArrFree_dict, listArrFreeKVs_cons, listArrFreeKVs_cons,
            listArrFreeKVs_cons, listArrFree_dict, hmol, listArrFree_str, listArrFree_num]
          rfl
        · rw [to_schema_raw_v2 m cf fgen] at h
          obtain rfl := Except.ok.inj h
          simp only [QVal.listArrFree]
          refine listArrFreeKVs_dictSet (listArrFreeKVs_dictSet ?_ (by simp)) (by simp)
          unfold moleculeOf
          exact listArrFree_moleculeDict m _ _ _
      · rw [to_schema_raw_v12_err m dtype units cf fgen h2 hu] at h
        cases h
    · rw [to_schema_raw_snu m dtype units cf fgen h1
        (fun hh => h2 (Or.inl hh)) (fun hh => h2 (Or.inr hh))] at h
      cases h

/-- C7: with `np_out = false`, every successful result is free of ndarray
nodes: the final `unnp` normalization has converted every array into plain
nested sequences. -/
theorem np_out_false_no_arrays (m : MolRec) (dtype : String ⊕ Int) (units : String)
    (cf : String → String → ℚ) (fgen : List String → String) (v : QVal)
    (h : to_schema m dtype units false cf fgen = Except.ok v) : v.hasArr = false := by
  unfold to_schema at h
  cases hraw : to_schema_raw m dtype units cf fgen with
  | error e =>
    rw [hraw] at h
    cases h
  | ok q =>
    rw [hraw] at h
    simp only [Except.ok.injEq, Bool.false_eq_true, if_false] at h
    rw [← h]
    exact hasArr_unnp q (to_schema_raw_listArrFree hraw)

/-- Witness for C7: the v2 translation of the six-atom sample with
`np_out = false` succeeds and its result has no array node. -/
theorem np_out_false_no_arrays_witness :
    ∃ v, to_schema sample6 (Sum.inr 2) "Bohr" false cfSample fgenSample = Except.ok v
      ∧ v.hasArr = false := by
  have hok := to_schema_of_raw_ok false (to_schema_raw_v2 sample6 cfSample fgenSample)
  exact ⟨_, hok,
    np_out_false_no_arrays sample6 (Sum.inr 2) "Bohr" cfSample fgenSample _ hok⟩

theorem npArrayCopy_get (s : NpStore) (r : Nat) (copy : Bool)
    (h : r < s.arrays.length) :
    (npArrayCopy s r copy).1.get r = s.get r ∧
    (npArrayCopy s r copy).1.get (npArrayCopy s r copy).2 = s.get r ∧
    r < (npArrayCopy s r copy).1.arrays.length := by
  cases copy
  · exact ⟨rfl, rfl, h⟩
  · refine ⟨npstore_get_alloc_lt _ h, npstore_get_alloc_self _ _, ?_⟩
    simp [npArrayCopy, NpStore.alloc]
    omega

theorem npMulScalar_frame (s : NpStore) (r : Nat) (f : ℚ) {r' : Nat}
    (h : r' < s.arrays.length) :
    (npMulScalar s r f).1.get r' = s.get r' :=
  npstore_get_alloc_lt _ h

theorem npMulScalar_out (s : NpStore) (r : Nat) (f : ℚ) :
    (npMulScalar s r f).1.get (npMulScalar s r f).2 = (s.get r).map (fun x => x * f) :=
  npstore_get_alloc_self _ _

/-- C8: the geometry pipeline of lines 41-48 replayed against the array
store never writes through the caller's array, for both values of the
`copy` keyword: after the call the caller's reference still holds the
original coordinates, while the result holds the scaled geometry
(`scaledGeomCore`).  The remaining fields are only read (the embedding of
the function is pure in them), so a second call sees the same record. -/
theorem geom_frame (s : NpStore) (gref : Nat) (molUnits : String) (iua : Option ℚ)
    (units : String) (cf : String → String → ℚ) (copy : Bool)
    (href : gref < s.arrays.length) :
    (geomTrace s gref molUnits iua units cf copy).1.get gref = s.get gref ∧
    (geomTrace s gref molUnits iua units cf copy).1.get
        (geomTrace s gref molUnits iua units cf copy).2
      = scaledGeomCore (s.get gref) molUnits iua units cf := by
  obtain ⟨hg1, hg2, hlen⟩ := npArrayCopy_get s gref copy href
  unfold geomTrace scaledGeomCore
  split_ifs with h1 h2
  · exact ⟨hg1, hg2⟩
  · exact ⟨(npMulScalar_frame _ _ _ hlen).trans hg1, by rw [npMulScalar_out, hg2]⟩
  · exact ⟨(npMulScalar_frame _ _ _ hlen).trans hg1, by rw [npMulScalar_out, hg2]⟩

/-- A one-array store for the frame witness. -/
def storeSample : NpStore := ⟨[[1, 2, 3]]⟩

/-- Witness for C8 at a concrete store, with `copy=False` and the
record-specific Angstrom factor branch. -/
theorem geom_frame_witness :
    (geomTrace storeSample 0 "Angstrom" (some (27 / 50)) "Bohr" cfSample false).1.get 0
        = storeSample.get 0 ∧
    (geomTrace storeSample 0 "Angstrom" (some (27 / 50)) "Bohr" cfSample false).1.get
        (geomTrace storeSample 0 "Angstrom" (some (27 / 50)) "Bohr" cfSample false).2
      = scaledGeomCore (storeSample.get 0) "Angstrom" (some (27 / 50)) "Bohr" cfSample :=
  geom_frame storeSample 0 "Angstrom" (some (27 / 50)) "Bohr" cfSample false
    (by simp [storeSample])

/-- The np_out postprocessing seen by a single dict entry: identity when
native arrays are requested, `unnp` otherwise. -/
def qnpVal (np_out : Bool) (v : QVal) : QVal :=
  if np_out then v else v.unnp

/-- C4: the legacy (psi4) result is the deep copy of the record in which
exactly `geom`, `units` and `name` are replaced — `geom` by the scaled
geometry, `units` by the requested label, `name` by the declared name or
the generated formula — and every other key reads back exactly as in the
record's dict (modulo only the uniform np_out normalization). -/
theorem legacy_three_replacements (m : MolRec) (units : String) (np_out : Bool)
    (cf : String → String → ℚ) (fgen : List String → String)
    (hu : units = "Bohr" ∨ units = "Angstrom") :
    ∃ d, to_schema m (Sum.inl "psi4") units np_out cf fgen = Except.ok (QVal.dict d) ∧
      dictGet d "geom"
        = some (qnpVal np_out (QVal.arr ((scaledGeom m units cf).map QVal.num))) ∧
      dictGet d "units" = some (QVal.str units) ∧
      dictGet d "name" = some (QVal.str (m.name.getD (fgen m.elem))) ∧
      ∀ k, k ≠ "geom" → k ≠ "units" → k ≠ "name" →
        dictGet d k = (dictGet (molrecToDict m) k).map (qnpVal np_out) := by
  have hraw := to_schema_raw_psi4 m units cf fgen
    (by rcases hu with h | h <;> subst h <;> simp)
  have hok := to_schema_of_raw_ok np_out hraw
  cases np_out
  · refine ⟨unnpKVs (dictSet (dictSet (dictSet (molrecToDict m)
        "geom" (QVal.arr ((scaledGeom m units cf).map QVal.num)))
        "units" (QVal.str units))
        "name" (QVal.str (m.name.getD (fgen m.elem)))), ?_, ?_, ?_, ?_, ?_⟩
    · rw [hok]
      simp [unnp_dict]
    · rw [dictGet_unnpKVs, dictGet_dictSet_ne _ _ (by simp),
        dictGet_dictSet_ne _ _ (by simp), dictGet_dictSet_self]
      rfl
    · rw [dictGet_unnpKVs, dictGet_dictSet_ne _ _ (by simp), dictGet_dictSet_self]
      simp
    · rw [dictGet_unnpKVs, dictGet_dictSet_self]
      simp
    · intro k hk1 hk2 hk3
      rw [dictGet_unnpKVs, dictGet_dictSet_ne _ _ hk3, dictGet_dictSet_ne _ _ hk2,
        dictGet_dictSet_ne _ _ hk1]
      rfl
  · refine ⟨dictSet (dictSet (dictSet (molrecToDict m)
        "geom" (QVal.arr ((scaledGeom m units cf).map QVal.num)))
        "units" (QVal.str units))
        "name" (QVal.str (m.name.getD (fgen m.elem))), ?_, ?_, ?_, ?_, ?_⟩
    · rw [hok]
      rfl
    · rw [dictGet_dictSet_ne _ _ (by simp), dictGet_dictSet_ne _ _ (by simp),
        dictGet_dictSet_self]
      rfl
    · rw [dictGet_dictSet_ne _ _ (by simp), dictGet_dictSet_self]
    · rw [dictGet_dictSet_self]
    · intro k hk1 hk2 hk3
      rw [dictGet_dictSet_ne _ _ hk3, dictGet_dictSet_ne _ _ hk2,
        dictGet_dictSet_ne _ _ hk1]
      cases dictGet (molrecToDict m) k <;> rfl

/-- Witness for C4 at the six-atom sample, units Bohr, native arrays. -/
theorem legacy_three_replacements_witness :
    ∃ d, to_schema sample6 (Sum.inl "psi4") "Bohr" true cfSample fgenSample
        = Except.ok (QVal.dict d) ∧
      dictGet d "geom"
        = some (qnpVal true (QVal.arr ((scaledGeom sample6 "Bohr" cfSample).map QVal.num))) ∧
      dictGet d "units" = some (QVal.str "Bohr") ∧
      dictGet d "name" = some (QVal.str (sample6.name.getD (fgenSample sample6.elem))) ∧
      ∀ k, k ≠ "geom" → k ≠ "units" → k ≠ "name" →
        dictGet d k = (dictGet (molrecToDict sample6) k).map (qnpVal true) :=
  legacy_three_replacements sample6 "Bohr" true cfSample fgenSample (Or.inl rfl)

/-- C5: the v2 `fragments` field equals the partition of the atom-index
range `[0, N)` split at the separator boundaries into contiguous groups
(`partitionAt`, the spec-side description), whenever the separators lie
within the range. -/
theorem fragments_partition (m : MolRec) (np_out : Bool)
    (cf : String → String → ℚ) (fgen : List String → String)
    (hsep : ∀ s ∈ m.fragment_separators, s ≤ m.geom.length / 3) :
    ∃ d, to_schema m (Sum.inr 2) "Bohr" np_out cf fgen = Except.ok (QVal.dict d) ∧
      dictGet d "fragments" = some (QVal.list
        ((partitionAt (m.geom.length / 3) m.fragment_separators).map
          fun fr => QVal.list (fr.map fun i => QVal.num (i : ℚ)))) := by
  have hok := to_schema_of_raw_ok np_out (to_schema_raw_v2 m cf fgen)
  have hD : dictGet (dictSet (dictSet (moleculeOf m "Bohr" cf fgen)
        "schema_name" (QVal.str "qcschema_molecule"))
        "schema_version" (QVal.num 2)) "fragments"
      = some (QVal.list
        ((partitionAt (m.geom.length / 3) m.fragment_separators).map
          fun fr => QVal.list (fr.map fun i => QVal.num (i : ℚ)))) := by
    rw [dictGet_dictSet_ne _ _ (by simp), dictGet_dictSet_ne _ _ (by simp)]
    unfold moleculeOf
    rw [dictGet_moleculeDict_fragments, scaledGeom_length,
      npSplit_range_eq_partitionAt _ _ hsep]
  cases np_out
  · refine ⟨unnpKVs (dictSet (dictSet (moleculeOf m "Bohr" cf fgen)
        "schema_name" (QVal.str "qcschema_molecule"))
        "schema_version" (QVal.num 2)), ?_, ?_⟩
    · rw [hok]
      simp [unnp_dict]
    · rw [dictGet_unnpKVs, hD]
      simp
  · exact ⟨_, by rw [hok]; rfl, hD⟩

/-- Witness for C5: six atoms with separators `[2, 4]` yield the fragments
`[[0,1],[2,3],[4,5]]`. -/
theorem fragments_partition_witness :
    partitionAt (sample6.geom.length / 3) sample6.fragment_separators
        = [[0, 1], [2, 3], [4, 5]] ∧
    (∃ d, to_schema sample6 (Sum.inr 2) "Bohr" true cfSample fgenSample
        = Except.ok (QVal.dict d) ∧
      dictGet d "fragments" = some (QVal.list
        ((partitionAt (sample6.geom.length / 3) sample6.fragment_separators).map
          fun fr => QVal.list (fr.map fun i => QVal.num (i : ℚ))))) :=
  ⟨by decide, fragments_partition sample6 true cfSample fgenSample (by decide)⟩

/-- C9: a geometry whose length is not a multiple of 3 is accepted without
error; the atom count is the floor `len // 3` (line 50), the v2 `fragments`
cover only the indices below that floor, while the output `geometry` still
carries every input coordinate (scaling is a plain elementwise map). -/
theorem nondivisible_geometry (m : MolRec) (cf : String → String → ℚ)
    (fgen : List String → String) (h3 : m.geom.length % 3 ≠ 0) :
    ∃ d, to_schema m (Sum.inr 2) "Bohr" true cf fgen = Except.ok (QVal.dict d) ∧
      dictGet d "geometry" = some (QVal.arr ((scaledGeom m "Bohr" cf).map QVal.num)) ∧
      (scaledGeom m "Bohr" cf).length = m.geom.length ∧
      dictGet d "fragments" = some (QVal.list
        ((npSplit (List.range (m.geom.length / 3)) m.fragment_separators).map
          fun fr => QVal.list (fr.map fun i => QVal.num (i : ℚ)))) ∧
      (∀ fr ∈ npSplit (List.range (m.geom.length / 3)) m.fragment_separators,
        ∀ i ∈ fr, i < m.geom.length / 3) := by
  have hok := to_schema_of_raw_ok true (to_schema_raw_v2 m cf fgen)
  refine ⟨dictSet (dictSet (moleculeOf m "Bohr" cf fgen)
      "schema_name" (QVal.str "qcschema_molecule"))
      "schema_version" (QVal.num 2),
    by rw [hok]; rfl, ?_, scaledGeom_length m "Bohr" cf, ?_, ?_⟩
  · rw [dictGet_dictSet_ne _ _ (by simp), dictGet_dictSet_ne _ _ (by simp)]
    unfold moleculeOf
    rw [dictGet_moleculeDict_geometry]
  · rw [dictGet_dictSet_ne _ _ (by simp), dictGet_dictSet_ne _ _ (by simp)]
    unfold moleculeOf
    rw [dictGet_moleculeDict_fragments, scaledGeom_length]
  · intro fr hfr i hi
    exact List.mem_range.mp (mem_of_mem_npSplit hfr hi)

/-- Witness for C9 at the seven-coordinate sample. -/
theorem nondivisible_geometry_witness :
    sample7.geom.length % 3 ≠ 0 ∧
    (∃ d, to_schema sample7 (Sum.inr 2) "Bohr" true cfSample fgenSample
        = Except.ok (QVal.dict d) ∧
      dictGet d "geometry"
        = some (QVal.arr ((scaledGeom sample7 "Bohr" cfSample).map QVal.num)) ∧
      (scaledGeom sample7 "Bohr" cfSample).length = sample7.geom.length ∧
      dictGet d "fragments" = some (QVal.list
        ((npSplit (List.range (sample7.geom.length / 3)) sample7.fragment_separators).map
          fun fr => QVal.list (fr.map fun i => QVal.num (i : ℚ)))) ∧
      (∀ fr ∈ npSplit (List.range (sample7.geom.length / 3)) sample7.fragment_separators,
        ∀ i ∈ fr, i < sample7.geom.length / 3)) :=
  ⟨by decide, nondivisible_geometry sample7 cfSample fgenSample (by decide)⟩

/-- C10: in the v1/v2 results the `fragments`, `fragment_charges` and
`fragment_multiplicities` values are plain lists for both values of
`np_out` (the source builds them with `.tolist()`), while with
`np_out = true` the `symbols`, `geometry`, `masses`, `atomic_numbers`,
`mass_numbers`, `atom_labels` and `real` values remain ndarrays. -/
theorem fragment_fields_always_plain (m : MolRec) (cf : String → String → ℚ)
    (fgen : List String → String) :
    (∀ np_out, ∃ d,
      to_schema m (Sum.inr 2) "Bohr" np_out cf fgen = Except.ok (QVal.dict d) ∧
      (∃ x, dictGet d "fragments" = some (QVal.list x)) ∧
      (∃ x, dictGet d "fragment_charges" = some (QVal.list x)) ∧
      (∃ x, dictGet d "fragment_multiplicities" = some (QVal.list x))) ∧
    (∃ d, to_schema m (Sum.inr 2) "Bohr" true cf fgen = Except.ok (QVal.dict d) ∧
      (∃ x, dictGet d "symbols" = some (QVal.arr x)) ∧
      (∃ x, dictGet d "geometry" = some (QVal.arr x)) ∧
      (∃ x, dictGet d "masses" = some (QVal.arr x)) ∧
      (∃ x, dictGet d "atomic_numbers" = some (QVal.arr x)) ∧
      (∃ x, dictGet d "mass_numbers" = some (QVal.arr x)) ∧
      (∃ x, dictGet d "atom_labels" = some (QVal.arr x)) ∧
      (∃ x, dictGet d "real" = some (QVal.arr x))) ∧
    (∀ np_out, ∃ dm,
      to_schema m (Sum.inr 1) "Bohr" np_out cf fgen = Except.ok (QVal.dict
        [("schema_name", QVal.str "qcschema_input"),
         ("schema_version", QVal.num 1),
         ("molecule", QVal.dict dm)]) ∧
      (∃ x, dictGet dm "fragments" = some (QVal.list x)) ∧
      (∃ x, dictGet dm "fragment_charges" = some (QVal.list x)) ∧
      (∃ x, dictGet dm "fragment_multiplicities" = some (QVal.list x))) ∧
    (∃ dm, to_schema m (Sum.inr 1) "Bohr" true cf fgen = Except.ok (QVal.dict
        [("schema_name", QVal.str "qcschema_input"),
         ("schema_version", QVal.num 1),
         ("molecule", QVal.dict dm)]) ∧
      (∃ x, dictGet dm "symbols" = some (QVal.arr x)) ∧
      (∃ x, dictGet dm "geometry" = some (QVal.arr x)) ∧
      (∃ x, dictGet dm "masses" = some (QVal.arr x)) ∧
      (∃ x, dictGet dm "atomic_numbers" = some (QVal.arr x)) ∧
      (∃ x, dictGet dm "mass_numbers" = some (QVal.arr x)) ∧
      (∃ x, dictGet dm "atom_labels" = some (QVal.arr x)) ∧
      (∃ x, dictGet dm "real" = some (QVal.arr x))) := by
  have hfr : ∃ x, dictGet (moleculeOf m "Bohr" cf fgen) "fragments" = some (QVal.list x) :=
    ⟨_, by unfold moleculeOf; rw [dictGet_moleculeDict_fragments]⟩
  have hfc : ∃ x, dictGet (moleculeOf m "Bohr" cf fgen) "fragment_charges"
      = some (QVal.list x) :=
    ⟨_, by unfold moleculeOf; rw [dictGet_moleculeDict_fragment_charges]⟩
  have hfm : ∃ x, dictGet (moleculeOf m "Bohr" cf fgen) "fragment_multiplicities"
      = some (QVal.list x) :=
    ⟨_, by unfold moleculeOf; rw [dictGet_moleculeDict_fragment_multiplicities]⟩
  have ha1 : ∃ x, dictGet (moleculeOf m "Bohr" cf fgen) "symbols" = some (QVal.arr x) :=
    ⟨_, by unfold moleculeOf; rw [dictGet_moleculeDict_symbols]⟩
  have ha2 : ∃ x, dictGet (moleculeOf m "Bohr" cf fgen) "geometry" = some (QVal.arr x) :=
    ⟨_, by unfold moleculeOf; rw [dictGet_moleculeDict_geometry]⟩
  have ha3 : ∃ x, dictGet (moleculeOf m "Bohr" cf fgen) "masses" = some (QVal.arr x) :=
    ⟨_, by unfold moleculeOf; rw [dictGet_moleculeDict_masses]⟩
  have ha4 : ∃ x, dictGet (moleculeOf m "Bohr" cf fgen) "atomic_numbers"
      = some (QVal.arr x) :=
    ⟨_, by unfold moleculeOf; rw [dictGet_moleculeDict_atomic_numbers]⟩
  have ha5 : ∃ x, dictGet (moleculeOf m "Bohr" cf fgen) "mass_numbers"
      = some (QVal.arr x) :=
    ⟨_, by unfold moleculeOf; rw [dictGet_moleculeDict_mass_numbers]⟩
  have ha6 : ∃ x, dictGet (moleculeOf m "Bohr" cf fgen) "atom_labels"
      = some (QVal.arr x) :=
    ⟨_, by unfold moleculeOf; rw [dictGet_moleculeDict_atom_labels]⟩
  have ha7 : ∃ x, dictGet (moleculeOf m "Bohr" cf fgen) "real" = some (QVal.arr x) :=
    ⟨_, by unfold moleculeOf; rw [dictGet_moleculeDict_real]⟩
  have hDget : ∀ kk : String, kk ≠ "schema_name" → kk ≠ "schema_version" →
      dictGet (dictSet (dictSet (moleculeOf m "Bohr" cf fgen)
        "schema_name" (QVal.str "qcschema_molecule"))
        "schema_version" (QVal.num 2)) kk
      = dictGet (moleculeOf m "Bohr" cf fgen) kk :=
    fun kk h1 h2 => by rw [dictGet_dictSet_ne _ _ h2, dictGet_dictSet_ne _ _ h1]
  have hmapList : ∀ (d : List (String × QVal)) (kk : String) (x : List QVal),
      dictGet d kk = some (QVal.list x) → dictGet (unnpKVs d) kk = some (QVal.list x) :=
    fun d kk x hx => by rw [dictGet_unnpKVs, hx]; simp
  refine ⟨fun np_out => ?_, ?_, fun np_out => ?_, ?_⟩
  · have hok := to_schema_of_raw_ok np_out (to_schema_raw_v2 m cf fgen)
    obtain ⟨x1, hx1⟩ := hfr
    obtain ⟨x2, hx2⟩ := hfc
    obtain ⟨x3, hx3⟩ := hfm
    cases np_out
    · refine ⟨unnpKVs (dictSet (dictSet (moleculeOf m "Bohr" cf fgen)
          "schema_name" (QVal.str "qcschema_molecule"))
          "schema_version" (QVal.num 2)), by rw [hok]; simp [unnp_dict], ?_, ?_, ?_⟩
      · exact ⟨x1, hmapList _ _ _ (by rw [hDget _ (by simp) (by simp), hx1])⟩
      · exact ⟨x2, hmapList _ _ _ (by rw [hDget _ (by simp) (by simp), hx2])⟩
      · exact ⟨x3, hmapList _ _ _ (by rw [hDget _ (by simp) (by simp), hx3])⟩
    · refine ⟨dictSet (dictSet (moleculeOf m "Bohr" cf fgen)
          "schema_name" (QVal.str "qcschema_molecule"))
          "schema_version" (QVal.num 2), by rw [hok]; rfl, ?_, ?_, ?_⟩
      · exact ⟨x1, by rw [hDget _ (by simp) (by simp), hx1]⟩
      · exact ⟨x2, by rw [hDget _ (by simp) (by simp), hx2]⟩
      · exact ⟨x3, by rw [hDget _ (by simp) (by simp), hx3]⟩
  · have hok := to_schema_of_raw_ok true (to_schema_raw_v2 m cf fgen)
    obtain ⟨y1, hy1⟩ := ha1
    obtain ⟨y2, hy2⟩ := ha2
    obtain ⟨y3, hy3⟩ := ha3
    obtain ⟨y4, hy4⟩ := ha4
    obtain ⟨y5, hy5⟩ := ha5
    obtain ⟨y6, hy6⟩ := ha6
    obtain ⟨y7, hy7⟩ := ha7
    refine ⟨dictSet (dictSet (moleculeOf m "Bohr" cf fgen)
        "schema_name" (QVal.str "qcschema_molecule"))
        "schema_version" (QVal.num 2), by rw [hok]; rfl, ?_, ?_, ?_, ?_, ?_, ?_, ?_⟩
    · exact ⟨y1, by rw [hDget _ (by simp) (by simp), hy1]⟩
    · exact ⟨y2, by rw [hDget _ (by simp) (by simp), hy2]⟩
    · exact ⟨y3, by rw [hDget _ (by simp) (by simp), hy3]⟩
    · exact ⟨y4, by rw [hDget _ (by simp) (by simp), hy4]⟩
    · exact ⟨y5, by rw [hDget _ (by simp) (by simp), hy5]⟩
    · exact ⟨y6, by rw [hDget _ (by simp) (by simp), hy6]⟩
    · exact ⟨y7, by rw [hDget _ (by simp) (by simp), hy7]⟩
  · have hok := to_schema_of_raw_ok np_out (to_schema_raw_v1 m cf fgen)
    obtain ⟨x1, hx1⟩ := hfr
    obtain ⟨x2, hx2⟩ := hfc
    obtain ⟨x3, hx3⟩ := hfm
    cases np_out
    · refine ⟨unnpKVs (moleculeOf m "Bohr" cf fgen),
        by rw [hok]; simp [unnp_dict, unnpKVs], ?_, ?_, ?_⟩
      · exact ⟨x1, hmapList _ _ _ hx1⟩
      · exact ⟨x2, hmapList _ _ _ hx2⟩
      · exact ⟨x3, hmapList _ _ _ hx3⟩
    · exact ⟨moleculeOf m "Bohr" cf fgen, by rw [hok]; rfl,
        ⟨x1, hx1⟩, ⟨x2, hx2⟩, ⟨x3, hx3⟩⟩
  · have hok := to_schema_of_raw_ok true (to_schema_raw_v1 m cf fgen)
    obtain ⟨y1, hy1⟩ := ha1
    obtain ⟨y2, hy2⟩ := ha2
    obtain ⟨y3, hy3⟩ := ha3
    obtain ⟨y4, hy4⟩ := ha4
    obtain ⟨y5, hy5⟩ := ha5
    obtain ⟨y6, hy6⟩ := ha6
    obtain ⟨y7, hy7⟩ := ha7
    exact ⟨moleculeOf m "Bohr" cf fgen, by rw [hok]; rfl,
      ⟨y1, hy1⟩, ⟨y2, hy2⟩, ⟨y3, hy3⟩, ⟨y4, hy4⟩, ⟨y5, hy5⟩, ⟨y6, hy6⟩, ⟨y7, hy7⟩⟩
